import Mathlib

/-!
Shallow embedding of the Dynamic-Form-Builder core (TypeScript/React) in Lean 4.

Sources embedded:
  - src/src/components/FormBuilder.tsx : the ElementType tree, findElementAndParent,
    findSection, handleDragEnd (drag move logic), handleElementUpdate, handleElementRemove,
    handleSubmit (schema handed to the ajv validator).
  - src/src/utils/schemaConverter.ts : elementsToJsonSchema (forward conversion).
  - src/src/components/FormPreview.tsx : convertJsonSchemaToElements (reverse conversion).
  - src/unnamed/part_000 (FormElement component) : addOption, removeOption.

Modelling conventions, chosen once and used throughout:
  - A JS object field holding undefined is modelled as an absent field (this matches
    JSON serialisation, deep-equality of the produced schema values, and the display
    path which stringifies the object); optional fields are Option values.
  - JS reference identity on parent arrays (activeParent === elements,
    element.children === activeParent) is modelled by a ParentRef locator (root, or
    the id of the owning section), which coincides with reference identity under the
    global id-uniqueness invariant stated by the data model.
  - JS truthiness is modelled field by field: for strings nonemptiness, for numbers
    being nonzero, for arrays and objects always true, for absent fields false.
  - String-valued schema metadata (title, description, example, enum entries) is
    modelled as strings; a non-string value in such a position is treated as absent.
  - JSON numbers are modelled as Int (the program only ever emits integers there).
  - Date.now() in handleDragEnd is an explicit parameter (now : Nat).
-/

/-- JSON values, as produced and consumed by the schema converter. Object fields are
kept in insertion order; JSON object equality is order-insensitive, so theorems that
compare whole objects state the fields in the exact order the code emits them. -/
inductive Json where
  | null : Json
  | str : String → Json
  | num : Int → Json
  | bool : Bool → Json
  | arr : List Json → Json
  | obj : List (String × Json) → Json

/-- ElementType from FormBuilder.tsx lines 13-24: a node of the form tree.
Field order: id, type, label, description, placeholder, required, options,
isMultipleChoice, maxOptions, children. -/
inductive Element where
  | mk (id type label : String) (description placeholder : Option String)
       (required : Option Bool) (options : Option (List String))
       (isMultipleChoice : Option Bool) (maxOptions : Option Int)
       (children : Option (List Element)) : Element

def Element.id : Element → String
  | .mk i _ _ _ _ _ _ _ _ _ => i

def Element.type : Element → String
  | .mk _ t _ _ _ _ _ _ _ _ => t

def Element.label : Element → String
  | .mk _ _ l _ _ _ _ _ _ _ => l

def Element.description : Element → Option String
  | .mk _ _ _ d _ _ _ _ _ _ => d

def Element.placeholder : Element → Option String
  | .mk _ _ _ _ p _ _ _ _ _ => p

def Element.required : Element → Option Bool
  | .mk _ _ _ _ _ r _ _ _ _ => r

def Element.options : Element → Option (List String)
  | .mk _ _ _ _ _ _ o _ _ _ => o

def Element.isMultipleChoice : Element → Option Bool
  | .mk _ _ _ _ _ _ _ m _ _ => m

def Element.maxOptions : Element → Option Int
  | .mk _ _ _ _ _ _ _ _ mo _ => mo

def Element.children : Element → Option (List Element)
  | .mk _ _ _ _ _ _ _ _ _ ch => ch

def Element.setChildren : Element → Option (List Element) → Element
  | .mk i t l d p r o m mo _, ch => .mk i t l d p r o m mo ch

/-- Identifies a parent sequence inside a tree: the root sequence, or the children
sequence of the section with the given id. Models the JS array references returned
by findElementAndParent (faithful under global id uniqueness). -/
inductive ParentRef where
  | root : ParentRef
  | sec (id : String) : ParentRef
deriving DecidableEq

mutual
/-- Spec-side predicate (not a source function): does any node of the tree, at any
depth, carry this id? Mirrors the search domain of findElementAndParent, which
descends into the children field of every node that has one. -/
def containsIdE : Element → String → Bool
  | .mk i _ _ _ _ _ _ _ _ (some cs), x => (i = x) || containsIdL cs x
  | .mk i _ _ _ _ _ _ _ _ none, x => (i = x)

def containsIdL : List Element → String → Bool
  | [], _ => false
  | e :: rest, x => containsIdE e x || containsIdL rest x
end

mutual
/-- Spec-side: number of nodes (at any depth) carrying this id. -/
def countIdE : Element → String → Nat
  | .mk i _ _ _ _ _ _ _ _ (some cs), x => (if i = x then 1 else 0) + countIdL cs x
  | .mk i _ _ _ _ _ _ _ _ none, x => if i = x then 1 else 0

def countIdL : List Element → String → Nat
  | [], _ => 0
  | e :: rest, x => countIdE e x + countIdL rest x
end

mutual
/-- One step of findElementAndParent (FormBuilder.tsx lines 45-58) on a single
element: match by id (returning the current parent sequence and its locator), else
search the children sequence when one exists. -/
def findEPStep (x : String) (full : List Element) (ref : ParentRef) : Element → Option (Element × ParentRef × List Element)
  | .mk i t l d p r o m mo (some cs) =>
    if i = x then some (.mk i t l d p r o m mo (some cs), ref, full)
    else findEPList x cs (ParentRef.sec i) cs
  | .mk i t l d p r o m mo none =>
    if i = x then some (.mk i t l d p r o m mo none, ref, full)
    else none

/-- Depth-first walk of findElementAndParent over a sequence, carrying the full
parent sequence and its locator for the result. -/
def findEPList (x : String) (full : List Element) (ref : ParentRef) : List Element → Option (Element × ParentRef × List Element)
  | [] => none
  | e :: rest =>
    match findEPStep x full ref e with
    | some r => some r
    | none => findEPList x full ref rest
end

/-- findElementAndParent from FormBuilder.tsx lines 45-58: depth-first search for
the element with the given id together with its immediate containing sequence. -/
def findElementAndParent (t : List Element) (x : String) : Option (Element × ParentRef × List Element) :=
  findEPList x t ParentRef.root t

mutual
/-- One step of findSection (FormBuilder.tsx lines 65-76): an element matches when
its id equals overId and its type is section; otherwise its children are searched. -/
def findSectionStep (x : String) : Element → Option Element
  | .mk i t l d p r o m mo (some cs) =>
    if i = x ∧ t = "section" then some (.mk i t l d p r o m mo (some cs))
    else findSectionList x cs
  | .mk i t l d p r o m mo none =>
    if i = x ∧ t = "section" then some (.mk i t l d p r o m mo none)
    else none

def findSectionList (x : String) : List Element → Option Element
  | [] => none
  | e :: rest =>
    match findSectionStep x e with
    | some f => some f
    | none => findSectionList x rest
end

/-- findSection from FormBuilder.tsx lines 65-76. -/
def findSection (t : List Element) (x : String) : Option Element :=
  findSectionList x t

mutual
/-- One step of the inner updateElements of the move branch (FormBuilder.tsx lines
114-130): the element whose id equals the target section id receives the dragged
element appended to its children (without descending further); any other element
with a children field has its children rewritten recursively. -/
def appendToSectionStep (tid : String) (x : Element) : Element → Element
  | .mk i t l d p r o m mo ch =>
    if i = tid then .mk i t l d p r o m mo (some (ch.getD [] ++ [x]))
    else
      match ch with
      | some cs => .mk i t l d p r o m mo (some (appendToSectionList tid x cs))
      | none => .mk i t l d p r o m mo none

def appendToSectionList (tid : String) (x : Element) : List Element → List Element
  | [] => []
  | e :: rest => appendToSectionStep tid x e :: appendToSectionList tid x rest
end

/-- arrayMove from dnd-kit, as used by the same-parent reorder branch: remove the
element at index i and reinsert it at index j (splice semantics; an out-of-range
source index leaves the list unchanged, a large target index clamps to the end). -/
def arrayMove (xs : List Element) (i j : Nat) : List Element :=
  match xs.get? i with
  | none => xs
  | some x =>
    let removed := xs.take i ++ xs.drop (i + 1)
    removed.take j ++ x :: removed.drop j

mutual
/-- One step of the inner updateElements of the same-parent reorder branch
(FormBuilder.tsx lines 145-161): the section owning the active parent sequence
(identified by reference in the source, by its id here) has that sequence
rearranged with arrayMove; other elements with children are rewritten recursively. -/
def reorderStep (sid : String) (ai oi : Nat) : Element → Element
  | .mk i t l d p r o m mo ch =>
    if i = sid then .mk i t l d p r o m mo (some (arrayMove (ch.getD []) ai oi))
    else
      match ch with
      | some cs => .mk i t l d p r o m mo (some (reorderList sid ai oi cs))
      | none => .mk i t l d p r o m mo none

def reorderList (sid : String) (ai oi : Nat) : List Element → List Element
  | [] => []
  | e :: rest => reorderStep sid ai oi e :: reorderList sid ai oi rest
end

/-- The fresh element built by the tool-drop branch of handleDragEnd (FormBuilder.tsx
lines 83-98), with Date.now() passed in as now. -/
def mkNewElement (toolId : String) (now : Nat) : Element :=
  Element.mk (toolId ++ "-" ++ toString now) toolId ("New " ++ toolId)
    (if toolId = "title" ∨ toolId = "section" then some "" else none)
    (some "")
    (some false)
    (if toolId = "select" then some ["Option 1", "Option 2"] else none)
    (if toolId = "select" then some false else none)
    (if toolId = "select" then some 4 else none)
    (if toolId = "section" then some [] else none)

/-- handleDragEnd from FormBuilder.tsx lines 60-168, as a pure function from the
current tree and the (active, over) ids to the next tree. Branches, in source order:
tool drop when no placed element matches the active id and the over id is not a
section; move into a section when the over id resolves to one (the filtered source
sequence is used only when the active parent is the root sequence - the source
passes the unfiltered tree otherwise); same-parent reorder; otherwise no change. -/
def handleDragEnd (t : List Element) (now : Nat) (activeId overId : String) : List Element :=
  let targetSection := findSection t overId
  match findElementAndParent t activeId with
  | none =>
    match targetSection with
    | some _ => t
    | none =>
      let newElement := mkNewElement activeId now
      match findElementAndParent t overId with
      | some (overElement, _, _) =>
        if overElement.type = "section" then
          t.map (fun e =>
            if e.id = overElement.id then e.setChildren (some (e.children.getD [] ++ [newElement])) else e)
        else t ++ [newElement]
      | none => t ++ [newElement]
  | some (activeElement, activeRef, activeParent) =>
    match findElementAndParent t overId with
    | none => t
    | some (overElement, overRef, overParent) =>
      match targetSection with
      | some ts =>
        if ts.id = overId then
          let newActiveParent := activeParent.filter (fun e => ¬ (e.id = activeId))
          if activeRef = ParentRef.root then
            appendToSectionList ts.id activeElement newActiveParent
          else
            appendToSectionList ts.id activeElement t
        else if activeRef = overRef then
          let ai := activeParent.findIdx (fun e => e.id = activeElement.id)
          let oi := overParent.findIdx (fun e => e.id = overElement.id)
          match activeRef with
          | ParentRef.root => arrayMove t ai oi
          | ParentRef.sec sid => reorderList sid ai oi t
        else t
      | none =>
        if activeRef = overRef then
          let ai := activeParent.findIdx (fun e => e.id = activeElement.id)
          let oi := overParent.findIdx (fun e => e.id = overElement.id)
          match activeRef with
          | ParentRef.root => arrayMove t ai oi
          | ParentRef.sec sid => reorderList sid ai oi t
        else t

/-- The partial field set handed to handleElementUpdate (Partial of ElementType):
an outer none means the key is absent from the update object. -/
structure ElementUpdates where
  id : Option String := none
  type : Option String := none
  label : Option String := none
  description : Option (Option String) := none
  placeholder : Option (Option String) := none
  required : Option (Option Bool) := none
  options : Option (Option (List String)) := none
  isMultipleChoice : Option (Option Bool) := none
  maxOptions : Option (Option Int) := none
  children : Option (Option (List Element)) := none

/-- The spread merge of handleElementUpdate (FormBuilder.tsx line 174): fields
present in the update object replace the corresponding element fields. -/
def applyUpdates (e : Element) (u : ElementUpdates) : Element :=
  match e with
  | .mk i t l d p r o m mo ch =>
    .mk (u.id.getD i) (u.type.getD t) (u.label.getD l) (u.description.getD d)
      (u.placeholder.getD p) (u.required.getD r) (u.options.getD o)
      (u.isMultipleChoice.getD m) (u.maxOptions.getD mo) (u.children.getD ch)

mutual
/-- One step of handleElementUpdate (FormBuilder.tsx lines 170-187): an id match
receives the merged fields (its children are not searched further); otherwise an
element with a children field has its children rewritten recursively. -/
def updateElementStep (x : String) (u : ElementUpdates) : Element → Element
  | .mk i t l d p r o m mo (some cs) =>
    if i = x then applyUpdates (.mk i t l d p r o m mo (some cs)) u
    else .mk i t l d p r o m mo (some (updateElementList x u cs))
  | .mk i t l d p r o m mo none =>
    if i = x then applyUpdates (.mk i t l d p r o m mo none) u
    else .mk i t l d p r o m mo none

def updateElementList (x : String) (u : ElementUpdates) : List Element → List Element
  | [] => []
  | e :: rest => updateElementStep x u e :: updateElementList x u rest
end

/-- handleElementUpdate from FormBuilder.tsx lines 170-187. -/
def handleElementUpdate (t : List Element) (x : String) (u : ElementUpdates) : List Element :=
  updateElementList x u t

mutual
/-- Children rewrite applied by handleElementRemove to every kept element that has
a children field (FormBuilder.tsx lines 195-197). -/
def removeChildrenStep (x : String) : Element → Element
  | .mk i t l d p r o m mo (some cs) => .mk i t l d p r o m mo (some (removeElementList x cs))
  | .mk i t l d p r o m mo none => .mk i t l d p r o m mo none

/-- handleElementRemove filter (FormBuilder.tsx lines 189-203): an id match is
dropped with its whole subtree; every kept element has its children filtered. -/
def removeElementList (x : String) : List Element → List Element
  | [] => []
  | e :: rest =>
    if e.id = x then removeElementList x rest
    else removeChildrenStep x e :: removeElementList x rest
end

/-- handleElementRemove from FormBuilder.tsx lines 189-203. -/
def handleElementRemove (t : List Element) (x : String) : List Element :=
  removeElementList x t

/-- The list filter of removeOption (part_000 line 63): keep every position whose
index differs from the requested one; k is the running index. -/
def removeAtIdx (index : Nat) : Nat → List String → List String
  | _, [] => []
  | k, s :: rest => if k = index then removeAtIdx index (k + 1) rest else s :: removeAtIdx index (k + 1) rest

/-- addOption from the FormElement component (part_000 lines 53-59): a no-op when
options are absent or when maxOptions is set (truthy, hence nonzero) and already
reached; otherwise appends one default option through the onUpdate merge. -/
def addOption (e : Element) : Element :=
  match e.options with
  | none => e
  | some opts =>
    match e.maxOptions with
    | some m =>
      if m ≠ 0 ∧ m ≤ (opts.length : Int) then e
      else applyUpdates e { options := some (some (opts ++ ["Option " ++ toString (opts.length + 1)])) }
    | none => applyUpdates e { options := some (some (opts ++ ["Option " ++ toString (opts.length + 1)])) }

/-- removeOption from the FormElement component (part_000 lines 61-65): a no-op when
options are absent or hold at most 2 entries; otherwise drops the requested index
through the onUpdate merge. -/
def removeOption (e : Element) (index : Nat) : Element :=
  match e.options with
  | none => e
  | some opts =>
    if opts.length ≤ 2 then e
    else applyUpdates e { options := some (some (removeAtIdx index 0 opts)) }

/-- Emits the description field of a property schema when the element carries one
(an undefined description is an absent field, matching JSON serialisation). -/
def descField : Option String → List (String × Json)
  | some d => [("description", Json.str d)]
  | none => []

/-- Emits examples: [placeholder] when the placeholder is truthy
(schemaConverter.ts lines 46-48 and analogous branches). -/
def examplesField : Option String → List (String × Json)
  | some p => if p = "" then [] else [("examples", Json.arr [Json.str p])]
  | none => []

/-- The non-section property schema of elementsToJsonSchema (schemaConverter.ts
lines 37-97): title and description first (the object literal at lines 38-41), then
the per-type fields added by the switch, in assignment order. -/
def leafSchema (ty lbl : String) (d ph : Option String) (opts : Option (List String))
    (multi : Option Bool) (maxO : Option Int) : Json :=
  Json.obj (("title", Json.str lbl) :: descField d ++
    (if ty = "text" then
      ("type", Json.str "string") :: examplesField ph
     else if ty = "email" then
      ("type", Json.str "string") :: ("format", Json.str "email") :: examplesField ph
     else if ty = "number" then
      ("type", Json.str "number") :: examplesField ph
     else if ty = "checkbox" then
      [("type", Json.str "boolean")]
     else if ty = "select" then
      (if multi = some true then
        ("type", Json.str "array") ::
        ("items", Json.obj [("type", Json.str "string"), ("enum", Json.arr ((opts.getD []).map Json.str))]) ::
        (match maxO with
         | some m => if m ≠ 0 then [("maxItems", Json.num m)] else []
         | none => [])
       else
        [("type", Json.str "string"), ("enum", Json.arr ((opts.getD []).map Json.str))])
     else if ty = "title" then
      [("type", Json.str "string"), ("readOnly", Json.bool true)]
     else
      [("type", Json.str "string")]))

mutual
/-- The per-element contribution to elementsToJsonSchema (schemaConverter.ts lines
23-98): the property entry keyed by the element id, and the required-id
contribution to the enclosing scope (the element id when its required flag is
truthy). A section with a children field becomes an object schema with recursively
converted properties and a child required list included only when nonempty; every
other element becomes a leaf schema. -/
def elementEntry : Element → (String × Json) × List String
  | .mk i ty lbl d ph r o m mo (some cs) =>
    if ty = "section" then
      let res := elementsToProps cs
      ((i, Json.obj (("type", Json.str "object") :: ("title", Json.str lbl) :: descField d ++
        [("properties", Json.obj res.1)] ++
        (if res.2 = [] then [] else [("required", Json.arr (res.2.map Json.str))]))),
       if r = some true then [i] else [])
    else
      ((i, leafSchema ty lbl d ph o m mo), if r = some true then [i] else [])
  | .mk i ty lbl d ph r o m mo none =>
    ((i, leafSchema ty lbl d ph o m mo), if r = some true then [i] else [])

/-- The forEach accumulation of elementsToJsonSchema: property entries and required
ids both in element order. -/
def elementsToProps : List Element → List (String × Json) × List String
  | [] => ([], [])
  | e :: rest =>
    let he := elementEntry e
    let hr := elementsToProps rest
    (he.1 :: hr.1, he.2 ++ hr.2)
end

/-- elementsToJsonSchema from schemaConverter.ts lines 11-105: the object schema for
a sequence of elements; required is omitted when empty (the undefined of the source
is an absent field), including on the early return for an empty sequence. -/
def elementsToJsonSchema (es : List Element) : Json :=
  match es with
  | [] => Json.obj [("type", Json.str "object"), ("properties", Json.obj [])]
  | _ =>
    let res := elementsToProps es
    Json.obj (("type", Json.str "object") :: ("properties", Json.obj res.1) ::
      (if res.2 = [] then [] else [("required", Json.arr (res.2.map Json.str))]))

/-- The schema object handleSubmit compiles with ajv and the Show Schema panel
displays (FormBuilder.tsx lines 205-209 and 225-228): the converter result is
nested whole under a properties key of a fresh object wrapper. -/
def submissionSchema (es : List Element) : Json :=
  Json.obj [("type", Json.str "object"), ("properties", elementsToJsonSchema es)]

/-- JS truthiness of a JSON value: empty strings, zero and null are falsy; arrays
and objects are always truthy. -/
def Json.truthy : Json → Bool
  | .null => false
  | .str s => ¬ (s = "")
  | .num n => ¬ (n = 0)
  | .bool b => b
  | .arr _ => true
  | .obj _ => true

/-- Object.entries of a JSON value: the fields of an object, nothing otherwise. -/
def jFields : Json → List (String × Json)
  | .obj fs => fs
  | _ => []

def lookupField : List (String × Json) → String → Option Json
  | [], _ => none
  | (k, v) :: rest, x => if k = x then some v else lookupField rest x

/-- Property access on a JSON value: none both for a missing key and for a
non-object receiver (the undefined of JS). -/
def jLookup (j : Json) (x : String) : Option Json :=
  lookupField (jFields j) x

def optTruthy : Option Json → Bool
  | some v => v.truthy
  | none => false

/-- A string-valued field carried over as an optional string (string schema
metadata modelling convention). -/
def jStrOpt : Option Json → Option String
  | some (Json.str s) => some s
  | _ => none

/-- Models (v or empty string): the string value when present, the empty string
for an absent or falsy field. -/
def jsStrEmpty : Option Json → String
  | some (Json.str s) => s
  | _ => ""

/-- Models (prop.title or key): the title when it is a truthy string, the raw
property key otherwise. -/
def labelOr (v : Option Json) (k : String) : String :=
  match v with
  | some (Json.str s) => if s = "" then k else s
  | _ => k

/-- Models (requiredList and requiredList.includes(key)): a boolean when the
required list is an array, an absent value otherwise. -/
def jRequiredFlag (req : Option Json) (k : String) : Option Bool :=
  match req with
  | some (Json.arr xs) => some (xs.any (fun v => match v with | Json.str s => s = k | _ => false))
  | _ => none

/-- The string entries of an enum array (enum values modelled as strings). -/
def enumStrings : Option Json → List String
  | some (Json.arr xs) => xs.filterMap (fun v => match v with | Json.str s => some s | _ => none)
  | _ => []

/-- JS object-as-map assignment m[k] = v: update in place when the key exists,
append otherwise. -/
def setKey : List (String × String) → String → String → List (String × String)
  | [], k, v => [(k, v)]
  | (k0, v0) :: rest, k, v => if k0 = k then (k, v) :: rest else (k0, v0) :: setKey rest k v

/-- Stores a description in the side map only when it is truthy
(FormPreview.tsx lines 102-104 and analogous places). -/
def setDescIfTruthy (m : List (String × String)) (k : String) (v : Option Json) : List (String × String) :=
  match v with
  | some (Json.str s) => if s = "" then m else setKey m k s
  | _ => m

/-- The result record of convertJsonSchemaToElements (FormPreview.tsx line 79):
the converted elements plus the label and description side maps. The same record
doubles as the accumulation state of the forEach walk. -/
structure ConvState where
  convertedElements : List Element
  labels : List (String × String)
  descriptions : List (String × String)

/-- A child element of the reverse-converted object case (FormPreview.tsx lines
178-187): the id is the parent key and the child key joined by an underscore, the
type is checkbox for boolean and text for everything else, with no recursion into
deeper objects. -/
def mkObjectChild (key : String) (propReq : Option Json) (ck : String) (cp : Json) : Element :=
  Element.mk (key ++ "_" ++ ck)
    (match jLookup cp "type" with
     | some (Json.str s) => if s = "boolean" then "checkbox" else "text"
     | _ => "text")
    (labelOr (jLookup cp "title") ck)
    (jStrOpt (jLookup cp "description"))
    (some (jsStrEmpty (jLookup cp "example")))
    (jRequiredFlag propReq ck)
    none none none none

/-- The forEach over nested properties of the object case (FormPreview.tsx lines
177-195): pushes one child per entry and records its label and truthy description. -/
def buildObjectChildren (key : String) (propReq : Option Json) :
    List (String × Json) → List Element × List (String × String) × List (String × String) →
    List Element × List (String × String) × List (String × String)
  | [], acc => acc
  | (ck, cp) :: rest, acc =>
    buildObjectChildren key propReq rest
      (acc.1 ++ [mkObjectChild key propReq ck cp],
       setKey acc.2.1 (key ++ "_" ++ ck) (labelOr (jLookup cp "title") ck),
       setDescIfTruthy acc.2.2 (key ++ "_" ++ ck) (jLookup cp "description"))

/-- One property entry of convertJsonSchemaToElements (FormPreview.tsx lines
98-207): records a truthy description, then dispatches on the JSON Schema type
string; unmatched types add nothing. -/
def processProp (schemaReq : Option Json) (st : ConvState) (key : String) (prop : Json) : ConvState :=
  let required := jRequiredFlag schemaReq key
  let st1 : ConvState := { st with descriptions := setDescIfTruthy st.descriptions key (jLookup prop "description") }
  match jLookup prop "type" with
  | some (Json.str "string") =>
    if optTruthy (jLookup prop "enum") then
      { st1 with
        convertedElements := st1.convertedElements ++
          [Element.mk key "select" (labelOr (jLookup prop "title") key) (jStrOpt (jLookup prop "description"))
            none required (some (enumStrings (jLookup prop "enum"))) (some false) none none],
        labels := setKey st1.labels key (labelOr (jLookup prop "title") key) }
    else
      match jLookup prop "format" with
      | some (Json.str "email") =>
        { st1 with
          convertedElements := st1.convertedElements ++
            [Element.mk key "email" (labelOr (jLookup prop "title") key) (jStrOpt (jLookup prop "description"))
              (some (jsStrEmpty (jLookup prop "example"))) required none none none none],
          labels := setKey st1.labels key (labelOr (jLookup prop "title") key) }
      | _ =>
        { st1 with
          convertedElements := st1.convertedElements ++
            [Element.mk key "text" (labelOr (jLookup prop "title") key) (jStrOpt (jLookup prop "description"))
              (some (jsStrEmpty (jLookup prop "example"))) required none none none none],
          labels := setKey st1.labels key (labelOr (jLookup prop "title") key) }
  | some (Json.str "number") =>
    { st1 with
      convertedElements := st1.convertedElements ++
        [Element.mk key "number" (labelOr (jLookup prop "title") key) (jStrOpt (jLookup prop "description"))
          (some (jsStrEmpty (jLookup prop "example"))) required none none none none],
      labels := setKey st1.labels key (labelOr (jLookup prop "title") key) }
  | some (Json.str "integer") =>
    { st1 with
      convertedElements := st1.convertedElements ++
        [Element.mk key "number" (labelOr (jLookup prop "title") key) (jStrOpt (jLookup prop "description"))
          (some (jsStrEmpty (jLookup prop "example"))) required none none none none],
      labels := setKey st1.labels key (labelOr (jLookup prop "title") key) }
  | some (Json.str "boolean") =>
    { st1 with
      convertedElements := st1.convertedElements ++
        [Element.mk key "checkbox" (labelOr (jLookup prop "title") key) (jStrOpt (jLookup prop "description"))
          none required none none none none],
      labels := setKey st1.labels key (labelOr (jLookup prop "title") key) }
  | some (Json.str "array") =>
    match jLookup prop "items" with
    | some items =>
      if items.truthy then
        match jLookup items "enum" with
        | some ev =>
          if ev.truthy then
            { st1 with
              convertedElements := st1.convertedElements ++
                [Element.mk key "select" (labelOr (jLookup prop "title") key) (jStrOpt (jLookup prop "description"))
                  none required (some (enumStrings (some ev))) (some true) none none],
              labels := setKey st1.labels key (labelOr (jLookup prop "title") key) }
          else st1
        | none => st1
      else st1
    | none => st1
  | some (Json.str "object") =>
    let cps := match jLookup prop "properties" with
      | some pv => if pv.truthy then jFields pv else []
      | none => []
    let built := buildObjectChildren key (jLookup prop "required") cps ([], st1.labels, st1.descriptions)
    { convertedElements := st1.convertedElements ++
        [Element.mk key "section" (labelOr (jLookup prop "title") key) (jStrOpt (jLookup prop "description"))
          none none none none none (some built.1)],
      labels := built.2.1,
      descriptions := built.2.2 }
  | _ => st1

/-- convertJsonSchemaToElements from FormPreview.tsx lines 77-210: an optional
synthetic leading title element from the top-level title and description, then one
pass over the properties entries. -/
def convertJsonSchemaToElements (schema : Json) : ConvState :=
  let st0 : ConvState := ⟨[], [], []⟩
  let st1 :=
    match jLookup schema "title" with
    | some (Json.str s) =>
      if s = "" then st0
      else
        { convertedElements := [Element.mk "title" "title" s
            (some (jsStrEmpty (jLookup schema "description"))) none none none none none none],
          labels := [],
          descriptions := setDescIfTruthy [] "title" (jLookup schema "description") }
    | _ => st0
  match jLookup schema "properties" with
  | some (Json.obj ps) => ps.foldl (fun st kv => processProp (jLookup schema "required") st kv.1 kv.2) st1
  | _ => st1

/-- Field count of the properties member of a schema object: separates the wrapped
and unwrapped shapes of the submission schema. -/
def propertiesFieldCount (j : Json) : Nat :=
  (jFields ((jLookup j "properties").getD Json.null)).length

/-- Concrete trees and schemas used by the claim theorems, witnesses and
counterexamples. -/
def cexTextA : Element := Element.mk "a" "text" "A" none none none none none none none

def cexSec1 : Element := Element.mk "s1" "section" "S1" none none none none none none (some [cexTextA])

def cexSec2 : Element := Element.mk "s2" "section" "S2" none none none none none none (some [])

def c1Tree1 : List Element := [cexSec1, cexSec2]

def c1SelfSec : Element := Element.mk "s" "section" "S" none none none none none none (some [])

def c1Tree2 : List Element := [c1SelfSec]

def c1InnerSec : Element := Element.mk "s" "section" "S" none none none none none none (some [])

def c1OuterSec : Element := Element.mk "e" "section" "E" none none none none none none (some [c1InnerSec])

def c1Tree3 : List Element := [c1OuterSec]

def c1wTree : List Element := [cexTextA, cexSec2]

def c5TextB : Element := Element.mk "b" "text" "B" none none none none none none none

def c5Sec : Element := Element.mk "s" "section" "S" none none none none none none (some [c5TextB])

def c5Tree : List Element := [cexTextA, c5Sec]

def c4TextA : Element := Element.mk "a" "text" "Name" none none (some true) none none none none

def c4Line1 : Element := Element.mk "s_line1" "text" "Line 1" none none none none none none none

def c4AddressSec : Element := Element.mk "s" "section" "Address" none none none none none none (some [c4Line1])

def c4Tree : List Element := [c4TextA, c4AddressSec]

def c4Expected : Json :=
  Json.obj [("type", Json.str "object"),
    ("properties", Json.obj [
      ("a", Json.obj [("title", Json.str "Name"), ("type", Json.str "string")]),
      ("s", Json.obj [("type", Json.str "object"), ("title", Json.str "Address"),
        ("properties", Json.obj [("s_line1", Json.obj [("title", Json.str "Line 1"), ("type", Json.str "string")])])])]),
    ("required", Json.arr [Json.str "a"])]

def c6Schema : Json :=
  Json.obj [("type", Json.str "object"), ("title", Json.str "Survey"),
    ("properties", Json.obj [("color", Json.obj [("type", Json.str "string"),
      ("enum", Json.arr [Json.str "Red", Json.str "Blue"])])])]

def c6TitleElem : Element := Element.mk "title" "title" "Survey" (some "") none none none none none none

def c6SelectElem : Element :=
  Element.mk "color" "select" "color" none none none (some ["Red", "Blue"]) (some false) none none

def c3NumProp : Json := Json.obj [("type", Json.str "number")]

def c3AddrProp : Json :=
  Json.obj [("type", Json.str "object"), ("properties", Json.obj [("num", c3NumProp)])]

def c3Schema : Json := Json.obj [("properties", Json.obj [("addr", c3AddrProp)])]

def c3Child : Element := Element.mk "addr_num" "text" "num" none (some "") none none none none none

def c3SectionElem : Element :=
  Element.mk "addr" "section" "addr" none none none none none none (some [c3Child])

def c10Schema : Json :=
  Json.obj [("title", Json.str "T"),
    ("properties", Json.obj [("title", Json.obj [("type", Json.str "string")])])]

def c8SelectShort : Element :=
  Element.mk "sel" "select" "Pick" none none none (some ["A"]) (some false) none none

def c8SelectW : Element :=
  Element.mk "selw" "select" "Pick" none none none (some ["A", "B", "C"]) (some false) none none

def c9SelectZero : Element :=
  Element.mk "sel0" "select" "Pick" none none none (some []) (some false) (some 0) none

def c9SelectOver : Element :=
  Element.mk "sel3" "select" "Pick" none none none (some ["A", "B", "C"]) (some false) (some 2) none

def c9SelectW : Element :=
  Element.mk "selw9" "select" "Pick" none none none (some ["A", "B"]) (some false) (some 4) none

/-- Merging an update object that carries only an options field replaces exactly the
options field of the element. -/
theorem applyUpdates_options (e : Element) (l : Option (List String)) :
    (applyUpdates e { options := some l }).options = l := by
  cases e
  rfl

/-- A filter index strictly below the running counter never matches again, so the
remainder of the list is kept whole. -/
theorem removeAtIdx_past (index : Nat) :
    ∀ (xs : List String) (k : Nat), index < k → removeAtIdx index k xs = xs := by
  intro xs
  induction xs with
  | nil => intro k _; rfl
  | cons s rest ih =>
    intro k hk
    unfold removeAtIdx
    rw [if_neg (by omega)]
    rw [ih (k + 1) (by omega)]

/-- The index filter of removeOption removes at most one entry. -/
theorem removeAtIdx_length (index : Nat) :
    ∀ (xs : List String) (k : Nat), xs.length - 1 ≤ (removeAtIdx index k xs).length := by
  intro xs
  induction xs with
  | nil => intro k; simp [removeAtIdx]
  | cons s rest ih =>
    intro k
    unfold removeAtIdx
    by_cases hk : k = index
    · rw [if_pos hk]
      rw [removeAtIdx_past index rest (k + 1) (by omega)]
      simp
    · rw [if_neg hk]
      have := ih (k + 1)
      simp only [List.length_cons]
      omega

/-- C8 counterexample: a select element holding a single option is below the
removal floor, so removeOption leaves it with one option, not at least two, and
the claim as stated fails for it. -/
theorem removeOption_short_counterexample :
    c8SelectShort.options = some ["A"] ∧
    ¬ 2 ≤ ((removeOption c8SelectShort 0).options.getD []).length := by
  exact ⟨rfl, by decide⟩

/-- C8 amended: for a select element whose options list already has at least 2
entries, removeOption keeps the length at or above 2, and a list of exactly 2
entries is returned unchanged (the whole element is unchanged). -/
theorem removeOption_floor (e : Element) (opts : List String) (i : Nat)
    (h : e.options = some opts) (h2 : 2 ≤ opts.length) :
    2 ≤ ((removeOption e i).options.getD []).length ∧
    (opts.length = 2 → removeOption e i = e) := by
  unfold removeOption
  simp only [h]
  by_cases hle : opts.length ≤ 2
  · rw [if_pos hle]
    constructor
    · rw [h]
      simpa using h2
    · intro _; rfl
  · rw [if_neg hle]
    constructor
    · rw [applyUpdates_options]
      have := removeAtIdx_length i opts 0
      simp only [Option.getD_some]
      omega
    · intro h2eq
      omega

/-- C8 witness: removeOption applied to a three-option select element. -/
theorem removeOption_floor_witness :
    2 ≤ ((removeOption c8SelectW 0).options.getD []).length ∧
    (((["A", "B", "C"] : List String)).length = 2 → removeOption c8SelectW 0 = c8SelectW) :=
  removeOption_floor c8SelectW ["A", "B", "C"] 0 rfl (by decide)

/-- C9 counterexample: maxOptions set to 0 is falsy in the source guard, so
addOption appends past the cap; and a list already above a nonzero cap stays above
it after the no-op, so the resulting length exceeds maxOptions. -/
theorem addOption_cap_counterexample :
    c9SelectZero.maxOptions = some 0 ∧
    ((addOption c9SelectZero).options.getD []).length = 1 ∧
    c9SelectOver.maxOptions = some 2 ∧
    addOption c9SelectOver = c9SelectOver ∧
    ((addOption c9SelectOver).options.getD []).length = 3 := by
  refine ⟨rfl, by decide, rfl, rfl, by decide⟩

/-- C9 amended: for a select element with options present and a nonzero maxOptions
value M, addOption is a no-op when the length already reached M, appends exactly
one default option otherwise, and never moves the length above M when it was not
already above it. -/
theorem addOption_respects_cap (e : Element) (opts : List String) (m : Int)
    (h : e.options = some opts) (hm : e.maxOptions = some m) (hmz : m ≠ 0) :
    ((m ≤ (opts.length : Int)) → addOption e = e) ∧
    ((opts.length : Int) < m →
      (addOption e).options = some (opts ++ ["Option " ++ toString (opts.length + 1)])) ∧
    ((opts.length : Int) ≤ m → (((addOption e).options.getD []).length : Int) ≤ m) := by
  unfold addOption
  simp only [h, hm]
  by_cases hcap : m ≠ 0 ∧ m ≤ (opts.length : Int)
  · rw [if_pos hcap]
    refine ⟨fun _ => rfl, fun hlt => absurd hcap.2 (by omega), fun hle => ?_⟩
    rw [h]
    simp only [Option.getD_some]
    omega
  · rw [if_neg hcap]
    have hlt : (opts.length : Int) < m := by
      rcases not_and_or.mp hcap with h0 | h1
      · exact absurd hmz (by simpa using h0)
      · omega
    refine ⟨fun hle => absurd hle (by omega), fun _ => applyUpdates_options e _, fun _ => ?_⟩
    rw [applyUpdates_options]
    simp only [Option.getD_some, List.length_append, List.length_cons, List.length_nil]
    omega

/-- C9 witness: addOption applied to a two-option select element capped at 4. -/
theorem addOption_respects_cap_witness :
    (((4 : Int) ≤ ((["A", "B"] : List String).length : Int)) → addOption c9SelectW = c9SelectW) ∧
    ((((["A", "B"] : List String).length : Int) < 4) →
      (addOption c9SelectW).options = some (["A", "B"] ++ ["Option " ++ toString ((["A", "B"] : List String).length + 1)])) ∧
    ((((["A", "B"] : List String).length : Int) ≤ 4) →
      (((addOption c9SelectW).options.getD []).length : Int) ≤ 4) :=
  addOption_respects_cap c9SelectW ["A", "B"] 4 rfl rfl (by decide)

/-- C4: forward conversion of the two-element sample tree (a required text field
and a section holding one text field) yields exactly the claimed schema: one
property per element keyed by id, no extra fields, and required equal to the
single id a. Fields inside each JSON object are written in the emission order of
the source; JSON object equality does not depend on field order. -/
theorem forward_convert_sample_tree : elementsToJsonSchema c4Tree = c4Expected := rfl

/-- C6: reverse conversion of the Survey schema yields the synthetic title element
(label Survey) followed by a single-choice select element with id color and
options Red, Blue. -/
theorem reverse_convert_survey :
    (convertJsonSchemaToElements c6Schema).convertedElements = [c6TitleElem, c6SelectElem] := rfl

/-- C2: the schema handleSubmit hands to the validator (and the Show Schema panel
displays) wraps the full converter result under a properties key of a second
object layer, so it never equals the converter result itself; shown here on the
empty tree and on the C4 sample tree by counting the fields of the properties
member. -/
theorem submission_schema_double_wrap :
    submissionSchema [] ≠ elementsToJsonSchema [] ∧
    submissionSchema c4Tree ≠ elementsToJsonSchema c4Tree := by
  constructor
  · intro h
    exact absurd (congrArg propertiesFieldCount h) (by decide)
  · intro h
    exact absurd (congrArg propertiesFieldCount h) (by decide)

/-- Induction over element sequences that provides the inductive hypothesis both
for the tail and for the children sequence of the head, mirroring the recursion
scheme shared by every tree operation of the source. -/
theorem elemList_ind (P : List Element → Prop)
    (hnil : P [])
    (hcons : ∀ e rest, (∀ cs, e.children = some cs → P cs) → P rest → P (e :: rest)) :
    ∀ t, P t := by
  have key : ∀ n t, sizeOf t ≤ n → P t := by
    intro n
    induction n with
    | zero =>
      intro t ht
      cases t with
      | nil => exact hnil
      | cons e rest => simp at ht
    | succ n ih =>
      intro t ht
      cases t with
      | nil => exact hnil
      | cons e rest =>
        apply hcons
        · intro cs hcs
          apply ih
          cases e with
          | mk i ty l d p r o m mo ch =>
            simp only [Element.children] at hcs
            subst hcs
            simp at ht
            omega
        · apply ih
          simp at ht
          omega
  intro t
  exact key (sizeOf t) t (le_refl _)

/-- When the id occurs nowhere in a sequence, the remove filter keeps every element
and every children sequence unchanged. -/
theorem removeElementList_not_found (x : String) :
    ∀ t, containsIdL t x = false → removeElementList x t = t := by
  apply elemList_ind
  · intro _
    rfl
  · intro e rest ihc ihr h
    cases e with
    | mk i ty l d p r o m mo ch =>
      cases ch with
      | some cs =>
        simp only [containsIdL, containsIdE, Bool.or_eq_false_iff, decide_eq_false_iff_not] at h
        obtain ⟨⟨hne, hcs⟩, hrest⟩ := h
        simp only [removeElementList, removeChildrenStep, Element.id]
        rw [if_neg hne]
        rw [ihc cs rfl hcs, ihr hrest]
      | none =>
        simp only [containsIdL, containsIdE, Bool.or_eq_false_iff, decide_eq_false_iff_not] at h
        obtain ⟨hne, hrest⟩ := h
        simp only [removeElementList, removeChildrenStep, Element.id]
        rw [if_neg hne]
        rw [ihr hrest]

/-- When the id occurs nowhere in a sequence, the update map reproduces every
element unchanged. -/
theorem updateElementList_not_found (x : String) (u : ElementUpdates) :
    ∀ t, containsIdL t x = false → updateElementList x u t = t := by
  apply elemList_ind
  · intro _
    rfl
  · intro e rest ihc ihr h
    cases e with
    | mk i ty l d p r o m mo ch =>
      cases ch with
      | some cs =>
        simp only [containsIdL, containsIdE, Bool.or_eq_false_iff, decide_eq_false_iff_not] at h
        obtain ⟨⟨hne, hcs⟩, hrest⟩ := h
        simp only [updateElementList, updateElementStep]
        rw [if_neg hne]
        rw [ihc cs rfl hcs, ihr hrest]
      | none =>
        simp only [containsIdL, containsIdE, Bool.or_eq_false_iff, decide_eq_false_iff_not] at h
        obtain ⟨hne, hrest⟩ := h
        simp only [updateElementList, updateElementStep]
        rw [if_neg hne]
        rw [ihr hrest]

/-- C7: for an id that matches no element anywhere in the tree, handleElementRemove
and handleElementUpdate both return the tree unchanged; not-found is silently
absorbed as a no-op. -/
theorem remove_update_missing_id_noop (t : List Element) (x : String) (u : ElementUpdates)
    (h : containsIdL t x = false) :
    handleElementRemove t x = t ∧ handleElementUpdate t x u = t :=
  ⟨removeElementList_not_found x t h, updateElementList_not_found x u t h⟩

/-- C7 witness: removing and updating a missing id on a two-element tree with a
nested section. -/
theorem remove_update_missing_id_noop_witness :
    handleElementRemove c5Tree "zz" = c5Tree ∧
    handleElementUpdate c5Tree "zz" { label := some "L" } = c5Tree :=
  remove_update_missing_id_noop c5Tree "zz" { label := some "L" } (by decide)

/-- C3 counterexample: reverse-converting a schema whose object property addr nests
a number property num yields a section whose single child is a text element with id
addr_num; the claimed same-dispatch recursion would give a number element keeping
its own key num as id, so the claim fails on this input. -/
theorem reverse_object_children_counterexample :
    (convertJsonSchemaToElements c3Schema).convertedElements = [c3SectionElem] ∧
    c3SectionElem.children = some [c3Child] ∧
    c3Child.type = "text" ∧ c3Child.type ≠ "number" ∧ c3Child.id ≠ "num" :=
  ⟨rfl, rfl, rfl, by decide, by decide⟩

/-- The child walk of the reverse object case produces exactly one child per nested
property, in order, each given by mkObjectChild. -/
theorem buildObjectChildren_elems (key : String) (req : Option Json) :
    ∀ (cps : List (String × Json)) (acc : List Element × List (String × String) × List (String × String)),
      (buildObjectChildren key req cps acc).1 =
        acc.1 ++ cps.map (fun p => mkObjectChild key req p.1 p.2) := by
  intro cps
  induction cps with
  | nil =>
    intro acc
    simp [buildObjectChildren]
  | cons p rest ih =>
    intro acc
    cases p with
    | mk ck cp =>
      simp [buildObjectChildren, ih]

/-- On a property whose type is object and whose properties member is an object,
processProp appends exactly one section element whose children are the nested
properties converted by mkObjectChild (boolean to checkbox, everything else to
text, ids prefixed by the parent key). -/
theorem processProp_object (req : Option Json) (st : ConvState) (key : String) (prop : Json)
    (cps : List (String × Json))
    (ht : jLookup prop "type" = some (Json.str "object"))
    (hp : jLookup prop "properties" = some (Json.obj cps)) :
    (processProp req st key prop).convertedElements =
      st.convertedElements ++
        [Element.mk key "section" (labelOr (jLookup prop "title") key)
          (jStrOpt (jLookup prop "description")) none none none none none
          (some (cps.map (fun p => mkObjectChild key (jLookup prop "required") p.1 p.2)))] := by
  unfold processProp
  simp only [ht, hp, Json.truthy, jFields, buildObjectChildren_elems, List.nil_append]
  simp

/-- C3 amended: for every schema holding a single property entry (key, prop) with
prop.type = object and nested properties cps, the reverse conversion yields one
section element with id key whose children are built from cps by the reduced
dispatch of the source: boolean becomes checkbox, every other type becomes text,
each child id is the parent key and the child key joined by an underscore, and no
recursion into deeper objects takes place. -/
theorem reverse_object_children_amended (key : String) (prop : Json) (cps : List (String × Json))
    (ht : jLookup prop "type" = some (Json.str "object"))
    (hp : jLookup prop "properties" = some (Json.obj cps)) :
    (convertJsonSchemaToElements (Json.obj [("properties", Json.obj [(key, prop)])])).convertedElements =
      [Element.mk key "section" (labelOr (jLookup prop "title") key)
        (jStrOpt (jLookup prop "description")) none none none none none
        (some (cps.map (fun p => mkObjectChild key (jLookup prop "required") p.1 p.2)))] := by
  have h0 : convertJsonSchemaToElements (Json.obj [("properties", Json.obj [(key, prop)])]) =
      processProp none ⟨[], [], []⟩ key prop := rfl
  rw [h0]
  rw [processProp_object none ⟨[], [], []⟩ key prop cps ht hp]
  simp

/-- C3 amended witness: the addr/num schema instantiating the amended theorem. -/
theorem reverse_object_children_amended_witness :
    (convertJsonSchemaToElements (Json.obj [("properties", Json.obj [("addr", c3AddrProp)])])).convertedElements =
      [Element.mk "addr" "section" (labelOr (jLookup c3AddrProp "title") "addr")
        (jStrOpt (jLookup c3AddrProp "description")) none none none none none
        (some ([("num", c3NumProp)].map (fun p => mkObjectChild "addr" (jLookup c3AddrProp "required") p.1 p.2)))] :=
  reverse_object_children_amended "addr" c3AddrProp [("num", c3NumProp)] rfl rfl

/-- Every property dispatch of the reverse conversion only ever appends to the
already converted elements; nothing is removed or reordered. -/
theorem processProp_appends (req : Option Json) (st : ConvState) (key : String) (prop : Json) :
    ∃ d, (processProp req st key prop).convertedElements = st.convertedElements ++ d := by
  unfold processProp
  repeat' split
  all_goals first
    | exact ⟨_, rfl⟩
    | exact ⟨[], by simp⟩

/-- The property walk of the reverse conversion only appends to the state it
starts from. -/
theorem foldProps_appends (req : Option Json) :
    ∀ (ps : List (String × Json)) (st : ConvState),
      ∃ d, (ps.foldl (fun st kv => processProp req st kv.1 kv.2) st).convertedElements =
        st.convertedElements ++ d := by
  intro ps
  induction ps with
  | nil =>
    intro st
    exact ⟨[], by simp⟩
  | cons p rest ih =>
    intro st
    obtain ⟨d1, h1⟩ := processProp_appends req st p.1 p.2
    obtain ⟨d2, h2⟩ := ih (processProp req st p.1 p.2)
    refine ⟨d1 ++ d2, ?_⟩
    rw [List.foldl_cons, h2, h1, List.append_assoc]

/-- C10: every schema with a truthy string title receives a synthetic leading
element with the fixed id title (and type title); consequently the concrete schema
that also holds a property keyed title reverse-converts to two distinct elements
(one title-typed, one text-typed) sharing the id title, so reverse conversion
violates the global id-uniqueness invariant of the element tree. -/
theorem reverse_title_id_collision :
    (∀ (schema : Json) (s : String), jLookup schema "title" = some (Json.str s) → s ≠ "" →
      ∃ rest, (convertJsonSchemaToElements schema).convertedElements =
        Element.mk "title" "title" s (some (jsStrEmpty (jLookup schema "description")))
          none none none none none none :: rest) ∧
    ((convertJsonSchemaToElements c10Schema).convertedElements.map Element.id = ["title", "title"] ∧
     (convertJsonSchemaToElements c10Schema).convertedElements.map Element.type = ["title", "text"]) := by
  constructor
  · intro schema s hT hs
    unfold convertJsonSchemaToElements
    simp only [hT]
    rw [if_neg hs]
    split
    · rename_i ps hps
      obtain ⟨d, hd⟩ := foldProps_appends (jLookup schema "required") ps _
      refine ⟨d, ?_⟩
      rw [hd]
      simp
    · exact ⟨[], by simp⟩
  · exact ⟨rfl, rfl⟩

/-- C10 witness: the universal half applied to the colliding schema. -/
theorem reverse_title_id_collision_witness :
    ∃ rest, (convertJsonSchemaToElements c10Schema).convertedElements =
      Element.mk "title" "title" "T" (some (jsStrEmpty (jLookup c10Schema "description")))
        none none none none none none :: rest :=
  reverse_title_id_collision.1 c10Schema "T" rfl (by decide)

/-- C5: when the dragged element and the drop target are both placed elements found
in different parent sequences and the over id does not resolve to a section (in
particular the target is not itself a section, which under the global id-uniqueness
invariant makes findSection miss), handleDragEnd returns the input tree unchanged:
nothing is removed, added, duplicated or reordered. -/
theorem cross_parent_non_section_noop (t : List Element) (now : Nat) (aid oid : String)
    (A O : Element) (pA pO : ParentRef) (lA lO : List Element)
    (hA : findElementAndParent t aid = some (A, pA, lA))
    (hO : findElementAndParent t oid = some (O, pO, lO))
    (_hType : O.type ≠ "section")
    (hSec : findSection t oid = none)
    (hRef : pA ≠ pO) :
    handleDragEnd t now aid oid = t := by
  unfold handleDragEnd
  simp only [hA, hO, hSec]
  rw [if_neg hRef]

/-- C5 witness: a root text element dragged over a text element nested in a
section. -/
theorem cross_parent_non_section_noop_witness :
    handleDragEnd c5Tree 0 "a" "b" = c5Tree :=
  cross_parent_non_section_noop c5Tree 0 "a" "b" cexTextA c5TextB ParentRef.root
    (ParentRef.sec "s") c5Tree [c5TextB] rfl rfl (by decide) rfl (by decide)

/-- A sequence containing no node with the id anywhere yields no section for it. -/
theorem countIdL_zero_findSection (x : String) :
    ∀ l, countIdL l x = 0 → findSectionList x l = none := by
  apply elemList_ind
  · intro _
    rfl
  · intro e rest ihc ihr h
    cases e with
    | mk i ty l d p r o m mo ch =>
      cases ch with
      | some cs =>
        simp only [countIdL, countIdE] at h
        have hix : ¬ i = x := by
          by_cases hx : i = x
          · rw [if_pos hx] at h; omega
          · exact hx
        have hcs : countIdL cs x = 0 := by rw [if_neg hix] at h; omega
        have hrest : countIdL rest x = 0 := by rw [if_neg hix] at h; omega
        simp only [findSectionList, findSectionStep]
        rw [if_neg (fun hc => hix hc.1)]
        rw [ihc cs rfl hcs]
        exact ihr hrest
      | none =>
        simp only [countIdL, countIdE] at h
        have hix : ¬ i = x := by
          by_cases hx : i = x
          · rw [if_pos hx] at h; omega
          · exact hx
        have hrest : countIdL rest x = 0 := by rw [if_neg hix] at h; omega
        simp only [findSectionList, findSectionStep]
        rw [if_neg (fun hc => hix hc.1)]
        exact ihr hrest

/-- Appending into a sequence that contains no node with the target id anywhere is
the identity. -/
theorem countIdL_zero_append (x : String) (el : Element) :
    ∀ l, countIdL l x = 0 → appendToSectionList x el l = l := by
  apply elemList_ind
  · intro _
    rfl
  · intro e rest ihc ihr h
    cases e with
    | mk i ty l d p r o m mo ch =>
      cases ch with
      | some cs =>
        simp only [countIdL, countIdE] at h
        have hix : ¬ i = x := by
          by_cases hx : i = x
          · rw [if_pos hx] at h; omega
          · exact hx
        have hcs : countIdL cs x = 0 := by rw [if_neg hix] at h; omega
        have hrest : countIdL rest x = 0 := by rw [if_neg hix] at h; omega
        simp only [appendToSectionList, appendToSectionStep]
        rw [if_neg hix]
        rw [ihc cs rfl hcs, ihr hrest]
      | none =>
        simp only [countIdL, countIdE] at h
        have hix : ¬ i = x := by
          by_cases hx : i = x
          · rw [if_pos hx] at h; omega
          · exact hx
        have hrest : countIdL rest x = 0 := by rw [if_neg hix] at h; omega
        simp only [appendToSectionList, appendToSectionStep]
        rw [if_neg hix]
        rw [ihr hrest]

/-- Whatever findSection returns carries the searched id and the section type. -/
theorem findSectionList_id_type (x : String) :
    ∀ l, ∀ S, findSectionList x l = some S → S.id = x ∧ S.type = "section" := by
  apply elemList_ind
  · intro S hS
    simp [findSectionList] at hS
  · intro e rest ihc ihr S hS
    cases e with
    | mk i ty l d p r o m mo ch =>
      cases ch with
      | some cs =>
        simp only [findSectionList, findSectionStep] at hS
        by_cases hc : i = x ∧ ty = "section"
        · rw [if_pos hc] at hS
          have hSe : Element.mk i ty l d p r o m mo (some cs) = S := Option.some.inj hS
          rw [← hSe]
          exact ⟨hc.1, hc.2⟩
        · rw [if_neg hc] at hS
          cases hcs : findSectionList x cs with
          | some f =>
            rw [hcs] at hS
            have hSf : f = S := Option.some.inj hS
            rw [← hSf]
            exact ihc cs rfl f hcs
          | none =>
            rw [hcs] at hS
            exact ihr S hS
      | none =>
        simp only [findSectionList, findSectionStep] at hS
        by_cases hc : i = x ∧ ty = "section"
        · rw [if_pos hc] at hS
          have hSe : Element.mk i ty l d p r o m mo none = S := Option.some.inj hS
          rw [← hSe]
          exact ⟨hc.1, hc.2⟩
        · rw [if_neg hc] at hS
          exact ihr S hS

/-- When findSection succeeds on a sequence, findElementAndParent also finds some
element for the same id (possibly a different node when ids repeat). -/
theorem findSectionList_findEPList (x : String) :
    ∀ l, ∀ (full : List Element) (ref : ParentRef) (S : Element),
      findSectionList x l = some S → ∃ z, findEPList x full ref l = some z := by
  apply elemList_ind
  · intro full ref S hS
    simp [findSectionList] at hS
  · intro e rest ihc ihr full ref S hS
    cases e with
    | mk i ty l d p r o m mo ch =>
      by_cases hix : i = x
      · cases ch with
        | some cs =>
          refine ⟨(Element.mk i ty l d p r o m mo (some cs), ref, full), ?_⟩
          simp [findEPList, findEPStep, hix]
        | none =>
          refine ⟨(Element.mk i ty l d p r o m mo none, ref, full), ?_⟩
          simp [findEPList, findEPStep, hix]
      · cases ch with
        | some cs =>
          simp only [findSectionList, findSectionStep] at hS
          rw [if_neg (fun hc => hix hc.1)] at hS
          simp only [findEPList, findEPStep]
          rw [if_neg hix]
          cases hcs : findSectionList x cs with
          | some f =>
            obtain ⟨z, hz⟩ := ihc cs rfl cs (ParentRef.sec i) f hcs
            rw [hz]
            exact ⟨z, rfl⟩
          | none =>
            rw [hcs] at hS
            have h2 : findSectionList x rest = some S := hS
            cases hfep : findEPList x cs (ParentRef.sec i) cs with
            | some r => exact ⟨r, rfl⟩
            | none => exact ihr full ref S h2
        | none =>
          simp only [findSectionList, findSectionStep] at hS
          rw [if_neg (fun hc => hix hc.1)] at hS
          have h2 : findSectionList x rest = some S := hS
          simp only [findEPList, findEPStep]
          rw [if_neg hix]
          exact ihr full ref S h2

/-- The move rewrite never changes the ids of a sequence (it only rewrites children
sequences in place or appends inside the matched section). -/
theorem appendToSectionStep_id (tid : String) (x : Element) (e : Element) :
    (appendToSectionStep tid x e).id = e.id := by
  cases e with
  | mk i ty l d p r o m mo ch =>
    cases ch with
    | some cs =>
      simp only [appendToSectionStep]
      by_cases hid : i = tid
      · rw [if_pos hid]
        try rfl
      · rw [if_neg hid]
        try rfl
    | none =>
      simp only [appendToSectionStep]
      by_cases hid : i = tid
      · rw [if_pos hid]
        try rfl
      · rw [if_neg hid]
        try rfl

theorem appendToSectionList_ids (tid : String) (x : Element) :
    ∀ l, (appendToSectionList tid x l).map Element.id = l.map Element.id := by
  intro l
  induction l with
  | nil => rfl
  | cons e rest ih => simp [appendToSectionList, appendToSectionStep_id, ih]


/-- Step evaluation: the move rewrite on an element whose id matches the target
appends to its children without descending. -/
theorem appendToSectionStep_hit (tid i ty l : String) (d p : Option String) (r : Option Bool)
    (o : Option (List String)) (m : Option Bool) (mo : Option Int)
    (ch : Option (List Element)) (x : Element) (hix : i = tid) :
    appendToSectionStep tid x (Element.mk i ty l d p r o m mo ch) =
      Element.mk i ty l d p r o m mo (some (ch.getD [] ++ [x])) := by
  cases ch <;> simp [appendToSectionStep, hix]

/-- Step evaluation: the move rewrite on a non-matching element with children
rewrites the children recursively. -/
theorem appendToSectionStep_miss_some (tid : String) (x : Element) (i ty l : String)
    (d p : Option String) (r : Option Bool) (o : Option (List String)) (m : Option Bool)
    (mo : Option Int) (cs : List Element) (hix : ¬ i = tid) :
    appendToSectionStep tid x (Element.mk i ty l d p r o m mo (some cs)) =
      Element.mk i ty l d p r o m mo (some (appendToSectionList tid x cs)) := by
  simp [appendToSectionStep, hix]

/-- Step evaluation: the move rewrite keeps a non-matching childless element. -/
theorem appendToSectionStep_miss_none (tid : String) (x : Element) (i ty l : String)
    (d p : Option String) (r : Option Bool) (o : Option (List String)) (m : Option Bool)
    (mo : Option Int) (hix : ¬ i = tid) :
    appendToSectionStep tid x (Element.mk i ty l d p r o m mo none) =
      Element.mk i ty l d p r o m mo none := by
  simp [appendToSectionStep, hix]

/-- Step evaluation: findSection matches an element carrying the id and the
section type. -/
theorem findSectionStep_hit (x i ty l : String) (d p : Option String) (r : Option Bool)
    (o : Option (List String)) (m : Option Bool) (mo : Option Int)
    (ch : Option (List Element)) (hix : i = x) (hty : ty = "section") :
    findSectionStep x (Element.mk i ty l d p r o m mo ch) =
      some (Element.mk i ty l d p r o m mo ch) := by
  cases ch <;> simp [findSectionStep, hix, hty]

/-- Step evaluation: findSection descends into the children of a non-matching
element. -/
theorem findSectionStep_miss_some (x i ty l : String) (d p : Option String) (r : Option Bool)
    (o : Option (List String)) (m : Option Bool) (mo : Option Int)
    (cs : List Element) (h : ¬ (i = x ∧ ty = "section")) :
    findSectionStep x (Element.mk i ty l d p r o m mo (some cs)) = findSectionList x cs := by
  simp only [findSectionStep]
  rw [if_neg h]

/-- Step evaluation: findSection skips a non-matching childless element. -/
theorem findSectionStep_miss_none (x i ty l : String) (d p : Option String) (r : Option Bool)
    (o : Option (List String)) (m : Option Bool) (mo : Option Int)
    (h : ¬ (i = x ∧ ty = "section")) :
    findSectionStep x (Element.mk i ty l d p r o m mo none) = none := by
  simp only [findSectionStep]
  rw [if_neg h]

/-- When exactly one node of a sequence carries the target id and findSection
returns a section for it, the move rewrite appends the dragged element to exactly
that section: findSection afterwards returns the same section with the element
appended at the end of its children. -/
theorem append_findSection (sid : String) (x : Element) :
    ∀ l, countIdL l sid = 1 → ∀ S, findSectionList sid l = some S →
      findSectionList sid (appendToSectionList sid x l) =
        some (S.setChildren (some (S.children.getD [] ++ [x]))) := by
  apply elemList_ind
  · intro _ S hS
    simp [findSectionList] at hS
  · intro e rest ihc ihr hcount S hS
    cases e with
    | mk i ty l d p r o m mo ch =>
      by_cases hix : i = sid
      · cases ch with
        | some cs =>
          have hzero : countIdL cs sid = 0 ∧ countIdL rest sid = 0 := by
            simp [countIdL, countIdE, hix] at hcount
            omega
          by_cases hty : ty = "section"
          · simp only [findSectionList] at hS
            rw [findSectionStep_hit sid i ty l d p r o m mo (some cs) hix hty] at hS
            have hSe : Element.mk i ty l d p r o m mo (some cs) = S := Option.some.inj hS
            simp only [appendToSectionList]
            rw [appendToSectionStep_hit sid i ty l d p r o m mo (some cs) x hix]
            simp only [findSectionList]
            rw [findSectionStep_hit sid i ty l d p r o m mo (some ((some cs).getD [] ++ [x])) hix hty]
            rw [← hSe]
            simp [Element.setChildren, Element.children]
          · simp only [findSectionList] at hS
            rw [findSectionStep_miss_some sid i ty l d p r o m mo cs (fun hc => hty hc.2)] at hS
            rw [countIdL_zero_findSection sid cs hzero.1] at hS
            have h2 : findSectionList sid rest = some S := hS
            rw [countIdL_zero_findSection sid rest hzero.2] at h2
            exact Option.noConfusion h2
        | none =>
          have hrest : countIdL rest sid = 0 := by
            simp [countIdL, countIdE, hix] at hcount
            omega
          by_cases hty : ty = "section"
          · simp only [findSectionList] at hS
            rw [findSectionStep_hit sid i ty l d p r o m mo none hix hty] at hS
            have hSe : Element.mk i ty l d p r o m mo none = S := Option.some.inj hS
            simp only [appendToSectionList]
            rw [appendToSectionStep_hit sid i ty l d p r o m mo none x hix]
            simp only [findSectionList]
            rw [findSectionStep_hit sid i ty l d p r o m mo (some (none.getD [] ++ [x])) hix hty]
            rw [← hSe]
            simp [Element.setChildren, Element.children]
          · simp only [findSectionList] at hS
            rw [findSectionStep_miss_none sid i ty l d p r o m mo (fun hc => hty hc.2)] at hS
            have h2 : findSectionList sid rest = some S := hS
            rw [countIdL_zero_findSection sid rest hrest] at h2
            exact Option.noConfusion h2
      · cases ch with
        | some cs =>
          have hcount2 : countIdL cs sid + countIdL rest sid = 1 := by
            simp [countIdL, countIdE, hix] at hcount
            omega
          simp only [findSectionList] at hS
          rw [findSectionStep_miss_some sid i ty l d p r o m mo cs (fun hc => hix hc.1)] at hS
          cases hcs : findSectionList sid cs with
          | none =>
            rw [hcs] at hS
            have h2 : findSectionList sid rest = some S := hS
            have hrest1 : countIdL rest sid = 1 := by
              rcases Nat.eq_zero_or_pos (countIdL rest sid) with h0 | hpos
              · rw [countIdL_zero_findSection sid rest h0] at h2
                exact Option.noConfusion h2
              · omega
            have hcs0 : countIdL cs sid = 0 := by omega
            simp only [appendToSectionList]
            rw [appendToSectionStep_miss_some sid x i ty l d p r o m mo cs hix]
            simp only [findSectionList]
            rw [findSectionStep_miss_some sid i ty l d p r o m mo (appendToSectionList sid x cs)
              (fun hc => hix hc.1)]
            rw [countIdL_zero_append sid x cs hcs0, hcs]
            exact ihr hrest1 S h2
          | some f =>
            rw [hcs] at hS
            have hSf : f = S := Option.some.inj hS
            subst hSf
            have hcs1 : countIdL cs sid = 1 := by
              rcases Nat.eq_zero_or_pos (countIdL cs sid) with h0 | hpos
              · rw [countIdL_zero_findSection sid cs h0] at hcs
                exact Option.noConfusion hcs
              · omega
            simp only [appendToSectionList]
            rw [appendToSectionStep_miss_some sid x i ty l d p r o m mo cs hix]
            simp only [findSectionList]
            rw [findSectionStep_miss_some sid i ty l d p r o m mo (appendToSectionList sid x cs)
              (fun hc => hix hc.1)]
            rw [ihc cs rfl hcs1 f hcs]
        | none =>
          have hrest1 : countIdL rest sid = 1 := by
            simp [countIdL, countIdE, hix] at hcount
            omega
          simp only [findSectionList] at hS
          rw [findSectionStep_miss_none sid i ty l d p r o m mo (fun hc => hix hc.1)] at hS
          have h2 : findSectionList sid rest = some S := hS
          simp only [appendToSectionList]
          rw [appendToSectionStep_miss_none sid x i ty l d p r o m mo hix]
          simp only [findSectionList]
          rw [findSectionStep_miss_none sid i ty l d p r o m mo (fun hc => hix hc.1)]
          exact ihr hrest1 S h2

/-- C1 counterexample: three concrete drags falsify the claim as stated. First,
moving the text element a out of section s1 into section s2 leaves a inside s1
while also appending it to s2: the source passes the unfiltered tree to the
rewrite when the parent of the dragged element is nested, so the element is
duplicated rather than detached. Second, dropping a section onto itself removes
it entirely. Third, moving a section into a section nested inside it loses both.
In each case the claimed detach-and-append conclusion fails. -/
theorem move_into_section_counterexample :
    handleDragEnd c1Tree1 0 "a" "s2" =
      [Element.mk "s1" "section" "S1" none none none none none none (some [cexTextA]),
       Element.mk "s2" "section" "S2" none none none none none none (some [cexTextA])] ∧
    handleDragEnd c1Tree2 0 "s" "s" = [] ∧
    handleDragEnd c1Tree3 0 "e" "s" = [] :=
  ⟨rfl, rfl, rfl⟩

/-- C1 amended: when the dragged element E sits in the root sequence, overId
resolves to section S, and S survives detaching E as the unique carrier of its id
(under the global id-uniqueness invariant of the data model this says exactly that
S is not E itself and not a descendant of E), handleDragEnd detaches E from the
root sequence - no element of the resulting root sequence carries the id of E -
and appends E at the end of the children of S. When the parent of E is instead a
nested section the source appends without detaching (see the counterexample), so
the claim holds only for root-level sources. -/
theorem move_root_element_into_section (t : List Element) (now : Nat) (eid sid : String)
    (E S : Element)
    (hE : findElementAndParent t eid = some (E, ParentRef.root, t))
    (hS : findSection t sid = some S)
    (hS2 : findSection (t.filter (fun e => ¬ (e.id = eid))) sid = some S)
    (hcount : countIdL (t.filter (fun e => ¬ (e.id = eid))) sid = 1) :
    (∀ e ∈ handleDragEnd t now eid sid, ¬ e.id = eid) ∧
    findSection (handleDragEnd t now eid sid) sid =
      some (S.setChildren (some (S.children.getD [] ++ [E]))) := by
  obtain ⟨hSid, hSty⟩ := findSectionList_id_type sid t S hS
  obtain ⟨z, hz⟩ := findSectionList_findEPList sid t t ParentRef.root S hS
  obtain ⟨O, pO, lO⟩ := z
  have hz2 : findElementAndParent t sid = some (O, pO, lO) := hz
  have hred : handleDragEnd t now eid sid =
      appendToSectionList sid E (t.filter (fun e => ¬ (e.id = eid))) := by
    unfold handleDragEnd
    simp only [hE, hz2, hS]
    rw [if_pos hSid]
    simp [hSid]
  constructor
  · intro e he
    rw [hred] at he
    have h1 : e.id ∈ (appendToSectionList sid E (t.filter (fun e => ¬ (e.id = eid)))).map Element.id :=
      List.mem_map_of_mem Element.id he
    rw [appendToSectionList_ids] at h1
    obtain ⟨e2, he2, heq⟩ := List.mem_map.mp h1
    have h3 := List.of_mem_filter he2
    have h4 : ¬ (e2.id = eid) := of_decide_eq_true h3
    rw [← heq]
    exact h4
  · rw [hred]
    exact append_findSection sid E (t.filter (fun e => ¬ (e.id = eid))) hcount S hS2

/-- C1 amended witness: a root text element dropped onto an empty sibling
section. -/
theorem move_root_element_into_section_witness :
    (∀ e ∈ handleDragEnd c1wTree 0 "a" "s2", ¬ e.id = "a") ∧
    findSection (handleDragEnd c1wTree 0 "a" "s2") "s2" =
      some (cexSec2.setChildren (some (cexSec2.children.getD [] ++ [cexTextA]))) :=
  move_root_element_into_section c1wTree 0 "a" "s2" cexTextA cexSec2 rfl rfl rfl rfl
